import Mathlib

/-!
Shallow embedding of the go-tensor-flow neural-network engine
(package `nn`: matrix.go, activations.go, layers.go, model.go, losses.go,
conv.go) and verification of its specification claims.

Modelling conventions:
* `float64` values are modelled as exact rationals `ℚ`; float transcendental
  primitives (`math.Exp`, `math.Sqrt`, `math.Log`) have no exact rational
  counterpart, so the functions that use them take the primitive as an
  explicit parameter (`exp`, `sqrt`, `log`), and theorems quantify over it
  (with a positivity hypothesis where the property needs one).
* A Go `*Matrix` is a structure with `Rows`, `Cols` and a total data
  function `ℕ → ℕ → ℚ`; only indices `i < Rows`, `j < Cols` are meaningful.
  A freshly allocated matrix (`NewMatrix`) is zero everywhere; a loop that
  fills every in-bounds cell is modelled by `Matrix.fill`, which guards the
  formula by the bounds and leaves 0 outside.
* Go methods that mutate their receiver are modelled by state passing:
  the method returns the updated receiver together with its Go result.
* Fallible Go functions (`(T, error)` results) return `Except String T`.
-/

namespace NN

/-- Go `Matrix` from matrix.go: row count, column count and the stored data. -/
structure Matrix where
  Rows : ℕ
  Cols : ℕ
  Data : ℕ → ℕ → ℚ

/-- Go `NewMatrix`: a fresh zero-filled matrix of the given shape. -/
def NewMatrix (rows cols : ℕ) : Matrix :=
  ⟨rows, cols, fun _ _ => 0⟩

/-- A fresh `NewMatrix rows cols` whose every in-bounds cell is then filled
with `f i j` by a full nested loop; out-of-bounds cells keep the zero fill. -/
def Matrix.fill (rows cols : ℕ) (f : ℕ → ℕ → ℚ) : Matrix :=
  ⟨rows, cols, fun i j => if i < rows ∧ j < cols then f i j else 0⟩

/-- Go `Matrix.Multiply` from matrix.go: requires `m.Cols == other.Rows`,
otherwise errors; result cell (i,j) is the dot product over `m.Cols`. -/
def Matrix.Multiply (m other : Matrix) : Except String Matrix :=
  if m.Cols ≠ other.Rows then
    .error "incompatible dimensions"
  else
    .ok (Matrix.fill m.Rows other.Cols
      (fun i j => ∑ k ∈ Finset.range m.Cols, m.Data i k * other.Data k j))

/-- Go `Matrix.Add` from matrix.go: element-wise sum, shapes must agree. -/
def Matrix.Add (m other : Matrix) : Except String Matrix :=
  if m.Rows ≠ other.Rows ∨ m.Cols ≠ other.Cols then
    .error "incompatible dimensions"
  else
    .ok (Matrix.fill m.Rows m.Cols (fun i j => m.Data i j + other.Data i j))

/-- Go `Matrix.Scale` from matrix.go: multiply every element by a scalar. -/
def Matrix.Scale (m : Matrix) (scalar : ℚ) : Matrix :=
  Matrix.fill m.Rows m.Cols (fun i j => m.Data i j * scalar)

/-- In-place element-wise copy of `src` into `dst` over `dst`'s bounds
(the copy-back loop of `Sequential.UpdateWeights`). -/
def Matrix.copyInto (dst src : Matrix) : Matrix :=
  ⟨dst.Rows, dst.Cols,
    fun i j => if i < dst.Rows ∧ j < dst.Cols then src.Data i j else dst.Data i j⟩

/-! activations.go -/

/-- The max-finding loop of `Softmax`: `max := input[0]` followed by
`for _, v := range input { if v > max { max = v } }`. -/
def goMax (l : List ℚ) (m : ℚ) : ℚ :=
  l.foldl (fun acc v => if v > acc then v else acc) m

/-- Go `Softmax` from activations.go: subtract the row maximum, exponentiate,
normalise by the sum.  The Go code reads `input[0]` first, so the empty
input has no defined result (runtime panic), modelled as `none`.
`exp` is the `math.Exp` primitive, passed as a parameter. -/
def Softmax (exp : ℚ → ℚ) : List ℚ → Option (List ℚ)
  | [] => none
  | x :: xs =>
    let m := goMax (x :: xs) x
    let expValues := (x :: xs).map (fun v => exp (v - m))
    let s := expValues.foldl (· + ·) 0
    some (expValues.map (fun e => e / s))

/-- Go `ReLU` from activations.go. -/
def ReLU (x : ℚ) : ℚ :=
  if x > 0 then x else 0

/-- Go `ReLUMatrix` from activations.go: element-wise ReLU. -/
def ReLUMatrix (m : Matrix) : Matrix :=
  Matrix.fill m.Rows m.Cols (fun i j => ReLU (m.Data i j))

/-- Row `i` of a matrix as the list `m.Data[i]` of length `Cols`. -/
def Matrix.rowList (m : Matrix) (i : ℕ) : List ℚ :=
  (List.range m.Cols).map (m.Data i)

/-- Go `SoftmaxMatrix` from activations.go: `result.Data[i] = Softmax(m.Data[i])`
for each row. -/
def SoftmaxMatrix (exp : ℚ → ℚ) (m : Matrix) : Matrix :=
  Matrix.fill m.Rows m.Cols
    (fun i j => ((Softmax exp (m.rowList i)).getD []).getD j 0)

/-! layers.go -/

/-- Go `Dense` layer state: weights `(InputSize, OutputSize)`, bias
`(1, OutputSize)`, plus the backward-pass caches. -/
structure Dense where
  InputSize : ℕ
  OutputSize : ℕ
  Weights : Matrix
  Bias : Matrix
  lastInput : Matrix
  weightsGrad : Matrix
  biasGrad : Matrix

/-- Go `Dense.Forward`: checks `input.Cols == InputSize`, caches the input,
multiplies by the weights and adds the bias to every row in place.
Returns the updated receiver (the cache is set before `Multiply` runs,
mirroring the mutation order of the Go method). -/
def Dense.Forward (d : Dense) (input : Matrix) : Dense × Except String Matrix :=
  if input.Cols ≠ d.InputSize then
    (d, .error "input size mismatch")
  else
    let d' := { d with lastInput := input }
    match input.Multiply d.Weights with
    | .error e => (d', .error e)
    | .ok output =>
      (d', .ok ⟨output.Rows, output.Cols,
        fun i j => if i < output.Rows ∧ j < output.Cols then
          output.Data i j + d.Bias.Data 0 j
        else output.Data i j⟩)

/-- Go `Dense.Backward`: checks `gradOutput.Cols == OutputSize`; overwrites the
cached weight gradient (batch-averaged input^T · gradOutput) and bias
gradient (batch-averaged column sums), and returns the fresh input gradient
gradOutput · weights^T with no batch averaging. -/
def Dense.Backward (d : Dense) (gradOutput : Matrix) :
    Dense × Except String Matrix :=
  if gradOutput.Cols ≠ d.OutputSize then
    (d, .error "gradient size mismatch")
  else
    let batchSize : ℚ := (gradOutput.Rows : ℚ)
    let wg : Matrix := ⟨d.weightsGrad.Rows, d.weightsGrad.Cols,
      fun i j => if i < d.InputSize ∧ j < d.OutputSize then
        (∑ b ∈ Finset.range d.lastInput.Rows,
          d.lastInput.Data b i * gradOutput.Data b j) / batchSize
      else d.weightsGrad.Data i j⟩
    let bg : Matrix := ⟨d.biasGrad.Rows, d.biasGrad.Cols,
      fun i j => if i = 0 ∧ j < d.OutputSize then
        (∑ b ∈ Finset.range gradOutput.Rows, gradOutput.Data b j) / batchSize
      else d.biasGrad.Data i j⟩
    let gradInput := Matrix.fill gradOutput.Rows d.InputSize
      (fun i j => ∑ k ∈ Finset.range d.OutputSize,
        gradOutput.Data i k * d.Weights.Data j k)
    ({ d with weightsGrad := wg, biasGrad := bg }, .ok gradInput)

/-- Go `Dense.GetParams`: the weight and bias matrices, in order. -/
def Dense.GetParams (d : Dense) : List Matrix :=
  [d.Weights, d.Bias]

/-- Go `Dense.GetGrads`: the cached weight and bias gradients, in order. -/
def Dense.GetGrads (d : Dense) : List Matrix :=
  [d.weightsGrad, d.biasGrad]

/-- Go `Dense.GetParamNames`. -/
def Dense.GetParamNames (_ : Dense) : List String :=
  ["weights", "bias"]

/-- Go `ReLULayer` state: only the cached forward input. -/
structure ReLULayer where
  lastInput : Matrix

/-- Go `ReLULayer.Forward`: caches the input, applies element-wise ReLU. -/
def ReLULayer.Forward (_ : ReLULayer) (input : Matrix) :
    ReLULayer × Except String Matrix :=
  (⟨input⟩, .ok (ReLUMatrix input))

/-- Go `ReLULayer.Backward`: a fresh zero matrix of `gradOutput`'s shape that
receives `gradOutput[i][j]` exactly where the cached input is `> 0`. -/
def ReLULayer.Backward (r : ReLULayer) (gradOutput : Matrix) :
    ReLULayer × Except String Matrix :=
  (r, .ok (Matrix.fill gradOutput.Rows gradOutput.Cols
    (fun i j => if r.lastInput.Data i j > 0 then gradOutput.Data i j else 0)))

/-- Go `SoftmaxLayer` state: the cached forward output. -/
structure SoftmaxLayer where
  lastOutput : Matrix

/-- Go `SoftmaxLayer.Forward`: row-wise softmax, caching the output. -/
def SoftmaxLayer.Forward (exp : ℚ → ℚ) (_ : SoftmaxLayer) (input : Matrix) :
    SoftmaxLayer × Except String Matrix :=
  let out := SoftmaxMatrix exp input
  (⟨out⟩, .ok out)

/-- Go `SoftmaxLayer.Backward`: gradient pass-through (combined with the
categorical cross-entropy loss gradient by design). -/
def SoftmaxLayer.Backward (s : SoftmaxLayer) (gradOutput : Matrix) :
    SoftmaxLayer × Except String Matrix :=
  (s, .ok gradOutput)

/-! losses.go -/

/-- Go `BinaryCrossEntropy` loss state: the clamping epsilon (Go default
`1e-7`). -/
structure BinaryCrossEntropy where
  Epsilon : ℚ

/-- Go `NewBinaryCrossEntropy`. -/
def NewBinaryCrossEntropy : BinaryCrossEntropy :=
  ⟨1 / 10 ^ 7⟩

/-- Go `BinaryCrossEntropy.Forward`: mean over all elements of
`−(y·log p + (1−y)·log(1−p))` with `p` clamped to `[ε, 1−ε]`.
`log` is the `math.Log` primitive, passed as a parameter. -/
def BinaryCrossEntropy.Forward (log : ℚ → ℚ) (bce : BinaryCrossEntropy)
    (predictions targets : Matrix) : Except String ℚ :=
  if predictions.Rows ≠ targets.Rows ∨ predictions.Cols ≠ targets.Cols then
    .error "shape mismatch"
  else
    let n : ℚ := ((predictions.Rows * predictions.Cols : ℕ) : ℚ)
    .ok ((∑ i ∈ Finset.range predictions.Rows,
      ∑ j ∈ Finset.range predictions.Cols,
        -(targets.Data i j *
            log (max bce.Epsilon (min (1 - bce.Epsilon) (predictions.Data i j))) +
          (1 - targets.Data i j) *
            log (1 - max bce.Epsilon
              (min (1 - bce.Epsilon) (predictions.Data i j))))) / n)

/-- Go `BinaryCrossEntropy.Backward`: gradient `−(y/p − (1−y)/(1−p))/N` with the
same clamping. -/
def BinaryCrossEntropy.Backward (bce : BinaryCrossEntropy)
    (predictions targets : Matrix) : Except String Matrix :=
  if predictions.Rows ≠ targets.Rows ∨ predictions.Cols ≠ targets.Cols then
    .error "shape mismatch"
  else
    let n : ℚ := ((predictions.Rows * predictions.Cols : ℕ) : ℚ)
    .ok (Matrix.fill predictions.Rows predictions.Cols (fun i j =>
      -(targets.Data i j /
          max bce.Epsilon (min (1 - bce.Epsilon) (predictions.Data i j)) -
        (1 - targets.Data i j) /
          (1 - max bce.Epsilon
            (min (1 - bce.Epsilon) (predictions.Data i j)))) / n))

/-- Go `CategoricalCrossEntropy` loss state. -/
structure CategoricalCrossEntropy where
  Epsilon : ℚ

/-- Go `NewCategoricalCrossEntropy`. -/
def NewCategoricalCrossEntropy : CategoricalCrossEntropy :=
  ⟨1 / 10 ^ 7⟩

/-- Go `CategoricalCrossEntropy.Forward`: `−Σ y·log(max ε p)` divided by the
row count. -/
def CategoricalCrossEntropy.Forward (log : ℚ → ℚ)
    (cce : CategoricalCrossEntropy) (predictions targets : Matrix) :
    Except String ℚ :=
  if predictions.Rows ≠ targets.Rows ∨ predictions.Cols ≠ targets.Cols then
    .error "shape mismatch"
  else
    let n : ℚ := ((predictions.Rows : ℕ) : ℚ)
    .ok ((∑ i ∈ Finset.range predictions.Rows,
      ∑ j ∈ Finset.range predictions.Cols,
        -(targets.Data i j * log (max cce.Epsilon (predictions.Data i j)))) / n)

/-- Go `CategoricalCrossEntropy.Backward`: gradient `−y/(max ε p)/N` with
`N` the row count. -/
def CategoricalCrossEntropy.Backward (cce : CategoricalCrossEntropy)
    (predictions targets : Matrix) : Except String Matrix :=
  if predictions.Rows ≠ targets.Rows ∨ predictions.Cols ≠ targets.Cols then
    .error "shape mismatch"
  else
    let n : ℚ := ((predictions.Rows : ℕ) : ℚ)
    .ok (Matrix.fill predictions.Rows predictions.Cols (fun i j =>
      -(targets.Data i j) / max cce.Epsilon (predictions.Data i j) / n))

/-- Go `MSE.Forward`: `Σ(y−p)² / (2N)` over all elements, `N` the element
count; shapes must agree. -/
def MSE.Forward (predictions targets : Matrix) : Except String ℚ :=
  if predictions.Rows ≠ targets.Rows ∨ predictions.Cols ≠ targets.Cols then
    .error "shape mismatch"
  else
    let n : ℚ := ((predictions.Rows * predictions.Cols : ℕ) : ℚ)
    .ok ((∑ i ∈ Finset.range predictions.Rows,
      ∑ j ∈ Finset.range predictions.Cols,
        (targets.Data i j - predictions.Data i j) *
          (targets.Data i j - predictions.Data i j)) / (2 * n))

/-- Go `MSE.Backward`: gradient `−(y−p)/N` element-wise. -/
def MSE.Backward (predictions targets : Matrix) : Except String Matrix :=
  if predictions.Rows ≠ targets.Rows ∨ predictions.Cols ≠ targets.Cols then
    .error "shape mismatch"
  else
    let n : ℚ := ((predictions.Rows * predictions.Cols : ℕ) : ℚ)
    .ok (Matrix.fill predictions.Rows predictions.Cols (fun i j =>
      -(targets.Data i j - predictions.Data i j) / n))

/-- The `Layer` interface of layers.go, as the closed set of its
implementations in the package. -/
inductive Layer where
  | dense : Dense → Layer
  | relu : ReLULayer → Layer
  | softmax : SoftmaxLayer → Layer

/-- Dynamic dispatch of `Layer.Forward` (`exp` is `math.Exp`, reaching the
softmax layer). -/
def Layer.Forward (exp : ℚ → ℚ) : Layer → Matrix → Layer × Except String Matrix
  | .dense d, input =>
    let r := d.Forward input
    (.dense r.1, r.2)
  | .relu rl, input =>
    let r := rl.Forward input
    (.relu r.1, r.2)
  | .softmax s, input =>
    let r := SoftmaxLayer.Forward exp s input
    (.softmax r.1, r.2)

/-- Dynamic dispatch of `Layer.Backward`. -/
def Layer.Backward : Layer → Matrix → Layer × Except String Matrix
  | .dense d, g =>
    let r := d.Backward g
    (.dense r.1, r.2)
  | .relu rl, g =>
    let r := rl.Backward g
    (.relu r.1, r.2)
  | .softmax s, g =>
    let r := s.Backward g
    (.softmax r.1, r.2)

/-- Dynamic dispatch of `Layer.GetParams` (empty for activation layers). -/
def Layer.GetParams : Layer → List Matrix
  | .dense d => d.GetParams
  | .relu _ => []
  | .softmax _ => []

/-- Dynamic dispatch of `Layer.GetGrads`. -/
def Layer.GetGrads : Layer → List Matrix
  | .dense d => d.GetGrads
  | .relu _ => []
  | .softmax _ => []

/-- Dynamic dispatch of `Layer.GetParamNames`. -/
def Layer.GetParamNames : Layer → List String
  | .dense d => d.GetParamNames
  | .relu _ => []
  | .softmax _ => []

/-! model.go: optimizers -/

/-- Go `AdamOptimizer` state: hyperparameters, the global step counter `T`,
and the per-identifier first/second moment maps. -/
structure AdamOptimizer where
  LearningRate : ℚ
  Beta1 : ℚ
  Beta2 : ℚ
  Epsilon : ℚ
  T : ℕ
  M : String → Option Matrix
  V : String → Option Matrix

/-- Go `NewAdamOptimizer`: β1=0.9, β2=0.999, ε=1e-8, `T`=0, empty maps. -/
def NewAdamOptimizer (learningRate : ℚ) : AdamOptimizer :=
  ⟨learningRate, 9 / 10, 999 / 1000, 1 / 10 ^ 8, 0,
    fun _ => none, fun _ => none⟩

/-- Go `AdamOptimizer.Update`: increments `T`, lazily allocates zero moment
matrices for a new identifier, updates the moments in place over the
parameter's bounds, bias-corrects by `(1 − β^T)` with the incremented `T`,
and returns the new parameter matrix.  `sqrt` is the `math.Sqrt`
primitive, passed as a parameter. -/
def AdamOptimizer.Update (sqrt : ℚ → ℚ) (adam : AdamOptimizer)
    (paramName : String) (params gradients : Matrix) :
    AdamOptimizer × Matrix :=
  let t := adam.T + 1
  let m0 := (adam.M paramName).getD (NewMatrix params.Rows params.Cols)
  let v0 := (adam.V paramName).getD (NewMatrix params.Rows params.Cols)
  let m1 : Matrix := ⟨m0.Rows, m0.Cols, fun i j =>
    if i < params.Rows ∧ j < params.Cols then
      adam.Beta1 * m0.Data i j + (1 - adam.Beta1) * gradients.Data i j
    else m0.Data i j⟩
  let v1 : Matrix := ⟨v0.Rows, v0.Cols, fun i j =>
    if i < params.Rows ∧ j < params.Cols then
      adam.Beta2 * v0.Data i j +
        (1 - adam.Beta2) * gradients.Data i j * gradients.Data i j
    else v0.Data i j⟩
  let mHat := Matrix.fill params.Rows params.Cols (fun i j =>
    m1.Data i j / (1 - adam.Beta1 ^ t))
  let vHat := Matrix.fill params.Rows params.Cols (fun i j =>
    v1.Data i j / (1 - adam.Beta2 ^ t))
  let updated := Matrix.fill params.Rows params.Cols (fun i j =>
    params.Data i j -
      adam.LearningRate * mHat.Data i j / (sqrt (vHat.Data i j) + adam.Epsilon))
  ({ adam with
      T := t,
      M := fun s => if s = paramName then some m1 else adam.M s,
      V := fun s => if s = paramName then some v1 else adam.V s },
    updated)

/-- Go `SGD` state: learning rate, momentum, per-identifier velocity map. -/
structure SGD where
  LearningRate : ℚ
  Momentum : ℚ
  Velocity : String → Option Matrix

/-- Go `NewSGD`. -/
def NewSGD (learningRate momentum : ℚ) : SGD :=
  ⟨learningRate, momentum, fun _ => none⟩

/-- Go `SGD.Update`: lazily allocates a zero velocity for a new identifier,
sets `velocity = momentum·velocity − lr·gradient` in place over the
parameter's bounds, and returns `param + velocity`. -/
def SGD.Update (sgd : SGD) (paramName : String) (params gradients : Matrix) :
    SGD × Matrix :=
  let v0 := (sgd.Velocity paramName).getD (NewMatrix params.Rows params.Cols)
  let v1 : Matrix := ⟨v0.Rows, v0.Cols, fun i j =>
    if i < params.Rows ∧ j < params.Cols then
      sgd.Momentum * v0.Data i j - sgd.LearningRate * gradients.Data i j
    else v0.Data i j⟩
  let updated := Matrix.fill params.Rows params.Cols (fun i j =>
    params.Data i j + v1.Data i j)
  ({ sgd with
      Velocity := fun s => if s = paramName then some v1 else sgd.Velocity s },
    updated)

/-! model.go: Sequential orchestrator.  The Go `Optimizer` interface value
is modelled by the state type `σ` together with the dispatched method
`upd : σ → String → Matrix → Matrix → σ × Matrix`; the Go `Loss` interface
value by the two dispatched methods passed to `TrainOnBatch`. -/

/-- The body of the `Sequential.UpdateWeights` per-layer loop: for each of
the layer's parameters in order (`GetParams`/`GetGrads`/`GetParamNames`,
instantiated per layer kind: Dense has `weights` then `bias`, activation
layers have none), call `Optimizer.Update` with identifier
`layer_<idx>_<name>` and copy the returned values back into the parameter
in place. -/
def UpdateLayerParams {σ : Type} (upd : σ → String → Matrix → Matrix → σ × Matrix)
    (st : σ) (layerIdx : ℕ) : Layer → σ × Layer
  | .dense d =>
    let r1 := upd st ("layer_" ++ toString layerIdx ++ "_weights")
      d.Weights d.weightsGrad
    let w' := Matrix.copyInto d.Weights r1.2
    let r2 := upd r1.1 ("layer_" ++ toString layerIdx ++ "_bias")
      d.Bias d.biasGrad
    let b' := Matrix.copyInto d.Bias r2.2
    (r2.1, .dense { d with Weights := w', Bias := b' })
  | .relu rl => (st, .relu rl)
  | .softmax s => (st, .softmax s)

/-- Go `Sequential.UpdateWeights`: update every layer's parameters in order,
threading the optimizer state; `layerIdx` counts the layer position. -/
def Sequential.UpdateWeights {σ : Type}
    (upd : σ → String → Matrix → Matrix → σ × Matrix) :
    List Layer → σ → ℕ → σ × List Layer
  | [], st, _ => (st, [])
  | l :: rest, st, layerIdx =>
    let r := UpdateLayerParams upd st layerIdx l
    let rr := Sequential.UpdateWeights upd rest r.1 (layerIdx + 1)
    (rr.1, r.2 :: rr.2)

/-- Go `Sequential.Forward`: pass the input through the layers in order;
a layer error aborts with the wrapped message naming the layer index `i`.
Mutations of already-visited layers persist in the returned list. -/
def Sequential.Forward (exp : ℚ → ℚ) :
    List Layer → ℕ → Matrix → List Layer × Except String Matrix
  | [], _, input => ([], .ok input)
  | l :: rest, i, input =>
    let r := l.Forward exp input
    match r.2 with
    | .error e =>
      (r.1 :: rest, .error ("error in layer " ++ toString i ++ ": " ++ e))
    | .ok out =>
      let rr := Sequential.Forward exp rest (i + 1) out
      (r.1 :: rr.1, rr.2)

/-- Go `Sequential.Backward`: backpropagate through the layers in reverse
order (the deeper suffix first); `i` is the absolute index of the head
layer.  A layer error aborts with the wrapped message naming the index. -/
def Sequential.Backward :
    List Layer → ℕ → Matrix → List Layer × Except String Matrix
  | [], _, grad => ([], .ok grad)
  | l :: rest, i, grad =>
    let rr := Sequential.Backward rest (i + 1) grad
    match rr.2 with
    | .error e => (l :: rr.1, .error e)
    | .ok g =>
      let r := l.Backward g
      match r.2 with
      | .error e =>
        (r.1 :: rr.1,
          .error ("error in backward pass at layer " ++ toString i ++ ": " ++ e))
      | .ok g' => (r.1 :: rr.1, .ok g')

/-- Go `Sequential.TrainOnBatch`: forward pass, loss forward, loss backward,
layer backward pass, then `UpdateWeights`; any error aborts the step
before the update stage, leaving the optimizer state untouched. -/
def Sequential.TrainOnBatch {σ : Type} (exp : ℚ → ℚ)
    (lossForward : Matrix → Matrix → Except String ℚ)
    (lossBackward : Matrix → Matrix → Except String Matrix)
    (upd : σ → String → Matrix → Matrix → σ × Matrix)
    (layers : List Layer) (st : σ) (X y : Matrix) :
    (List Layer × σ) × Except String ℚ :=
  let f := Sequential.Forward exp layers 0 X
  match f.2 with
  | .error e => ((f.1, st), .error e)
  | .ok predictions =>
    match lossForward predictions y with
    | .error e => ((f.1, st), .error e)
    | .ok loss =>
      match lossBackward predictions y with
      | .error e => ((f.1, st), .error e)
      | .ok gradLoss =>
        let b := Sequential.Backward f.1 0 gradLoss
        match b.2 with
        | .error e => ((b.1, st), .error e)
        | .ok _ =>
          let u := Sequential.UpdateWeights upd b.1 st 0
          ((u.2, u.1), .ok loss)

/-- Go `Sequential.Predict` delegates to `Sequential.Forward`. -/
def Sequential.Predict (exp : ℚ → ℚ) (layers : List Layer) (X : Matrix) :
    List Layer × Except String Matrix :=
  Sequential.Forward exp layers 0 X

/-- Total number of parameter matrices over a layer list (the number of
`Optimizer.Update` calls one `UpdateWeights` pass makes). -/
def paramCount (layers : List Layer) : ℕ :=
  (layers.map (fun l => l.GetParams.length)).sum

/-! conv.go -/

/-- Go `Tensor3D`: channels, height, width and the stored data. -/
structure Tensor3D where
  Channels : ℕ
  Height : ℕ
  Width : ℕ
  Data : ℕ → ℕ → ℕ → ℚ

/-- Go `NewTensor3D`: a fresh zero-filled tensor. -/
def NewTensor3D (channels height width : ℕ) : Tensor3D :=
  ⟨channels, height, width, fun _ _ _ => 0⟩

/-- Go `ConvLayer` state: filter bank `[numFilters][inChannels][fs][fs]`,
per-filter bias, stride and padding. -/
structure ConvLayer where
  NumFilters : ℕ
  FilterSize : ℕ
  Stride : ℕ
  Padding : ℕ
  InChannels : ℕ
  Filters : ℕ → ℕ → ℕ → ℕ → ℚ
  Bias : ℕ → ℚ

/-- Go `ConvLayer.Forward`: requires matching channel count; output spatial
size is `(size − filterSize + 2·padding)/stride + 1` per axis with Go's
toward-zero integer division (`Int.tdiv`); each cell is the filter bias
plus the dot product over all channels of the filter with its receptive
window, sampling coordinates outside `[0, size)` as zero. -/
def ConvLayer.Forward (conv : ConvLayer) (input : Tensor3D) :
    Except String Tensor3D :=
  if input.Channels ≠ conv.InChannels then
    .error "input channels mismatch"
  else
    let outHeight : ℤ :=
      Int.tdiv ((input.Height : ℤ) - conv.FilterSize + 2 * conv.Padding)
        (conv.Stride : ℤ) + 1
    let outWidth : ℤ :=
      Int.tdiv ((input.Width : ℤ) - conv.FilterSize + 2 * conv.Padding)
        (conv.Stride : ℤ) + 1
    .ok ⟨conv.NumFilters, outHeight.toNat, outWidth.toNat,
      fun f h w =>
        if f < conv.NumFilters ∧ h < outHeight.toNat ∧ w < outWidth.toNat then
          conv.Bias f +
            ∑ c ∈ Finset.range conv.InChannels,
              ∑ fh ∈ Finset.range conv.FilterSize,
                ∑ fw ∈ Finset.range conv.FilterSize,
                  (if 0 ≤ (h : ℤ) * conv.Stride + fh - conv.Padding ∧
                      (h : ℤ) * conv.Stride + fh - conv.Padding < input.Height ∧
                      0 ≤ (w : ℤ) * conv.Stride + fw - conv.Padding ∧
                      (w : ℤ) * conv.Stride + fw - conv.Padding < input.Width then
                    input.Data c ((h : ℤ) * conv.Stride + fh - conv.Padding).toNat
                        ((w : ℤ) * conv.Stride + fw - conv.Padding).toNat *
                      conv.Filters f c fh fw
                  else 0)
        else 0⟩

end NN

namespace NN

/-- Claim C4: `Multiply(A,B)` errors exactly when `A.Cols ≠ B.Rows`, and
otherwise returns the `A.Rows × B.Cols` matrix whose (i,j) entry is the dot
product `Σ_{t < A.Cols} A[i][t]·B[t][j]`. -/
theorem multiply_spec (A B : Matrix) :
    ((∃ e, A.Multiply B = .error e) ↔ A.Cols ≠ B.Rows) ∧
    (A.Cols = B.Rows →
      ∃ M, A.Multiply B = .ok M ∧ M.Rows = A.Rows ∧ M.Cols = B.Cols ∧
        ∀ i < M.Rows, ∀ j < M.Cols,
          M.Data i j = ∑ t ∈ Finset.range A.Cols, A.Data i t * B.Data t j) := by
  constructor
  · constructor
    · rintro ⟨e, he⟩
      by_contra hc
      simp [Matrix.Multiply, hc] at he
    · intro hne
      exact ⟨"incompatible dimensions", by simp [Matrix.Multiply, hne]⟩
  · intro heq
    refine ⟨Matrix.fill A.Rows B.Cols
      (fun i j => ∑ k ∈ Finset.range A.Cols, A.Data i k * B.Data k j),
      by simp [Matrix.Multiply, heq], rfl, rfl, ?_⟩
    intro i hi j hj
    simp only [Matrix.fill] at hi hj ⊢
    simp [hi, hj]

/-- Witness for C4 at a concrete input: a 2×3 times 3×1 product succeeds
with the right shape and entries, exercising the `A.Cols = B.Rows` branch. -/
theorem multiply_spec_witness :
    ((⟨2, 3, fun i j => (i : ℚ) + j⟩ : Matrix).Cols =
      (⟨3, 1, fun i j => (i : ℚ) * 2 + j⟩ : Matrix).Rows) ∧
    (∃ M, (⟨2, 3, fun i j => (i : ℚ) + j⟩ : Matrix).Multiply
        (⟨3, 1, fun i j => (i : ℚ) * 2 + j⟩ : Matrix) = .ok M ∧
      M.Rows = 2 ∧ M.Cols = 1 ∧
      ∀ i < M.Rows, ∀ j < M.Cols,
        M.Data i j = ∑ t ∈ Finset.range 3,
          ((i : ℚ) + t) * ((t : ℚ) * 2 + j)) := by
  refine ⟨rfl, ?_⟩
  exact (multiply_spec ⟨2, 3, fun i j => (i : ℚ) + j⟩
    ⟨3, 1, fun i j => (i : ℚ) * 2 + j⟩).2 rfl

/-- The running-sum loop of `Softmax` computes the list sum. -/
theorem foldl_add_eq (l : List ℚ) (a : ℚ) : l.foldl (· + ·) a = a + l.sum := by
  induction l generalizing a with
  | nil => simp
  | cons x xs ih => simp [List.foldl_cons, ih]; ring

/-- Shifting every element of the list and the accumulator by a constant
shifts the max-loop result by the same constant. -/
theorem goMax_shift (c : ℚ) (l : List ℚ) (a : ℚ) :
    goMax (l.map (fun v => v + c)) (a + c) = goMax l a + c := by
  induction l generalizing a with
  | nil => simp [goMax]
  | cons v l' ih =>
    simp only [List.map_cons, goMax, List.foldl_cons] at *
    by_cases h : v > a
    · have h' : v + c > a + c := add_lt_add_right h c
      rw [if_pos h, if_pos h']
      exact ih v
    · have h' : ¬(v + c > a + c) := by
        simpa [gt_iff_lt, add_lt_add_iff_right] using h
      rw [if_neg h, if_neg h']
      exact ih a

/-- Claim C8: for every positive `exp` primitive and nonempty input,
`Softmax` returns a vector of values in `[0,1]` summing to exactly 1
(the floating tolerance of the claim is exact in the rational model),
the result is unchanged when the same constant is added to every input
element, and on empty input `Softmax` has no result. -/
theorem softmax_spec (exp : ℚ → ℚ) (c : ℚ) (input : List ℚ)
    (hexp : ∀ x, 0 < exp x) (hne : input ≠ []) :
    (∃ out, Softmax exp input = some out ∧ out.length = input.length ∧
      (∀ y ∈ out, 0 ≤ y ∧ y ≤ 1) ∧ out.sum = 1) ∧
    Softmax exp (input.map (fun v => v + c)) = Softmax exp input ∧
    Softmax exp ([] : List ℚ) = none := by
  obtain ⟨x, xs, rfl⟩ : ∃ y ys, input = y :: ys := by
    cases input with
    | nil => exact absurd rfl hne
    | cons y ys => exact ⟨y, ys, rfl⟩
  refine ⟨?_, ?_, rfl⟩
  · set M := goMax (x :: xs) x with hM
    set ev := (x :: xs).map (fun v => exp (v - M)) with hev
    have hpos : ∀ e ∈ ev, 0 < e := by
      intro e he
      rw [hev, List.mem_map] at he
      obtain ⟨v, _, rfl⟩ := he
      exact hexp _
    have hnil : ev ≠ [] := by simp [hev]
    have hsum : 0 < ev.sum := List.sum_pos ev hpos hnil
    refine ⟨ev.map (fun e => e / (ev.foldl (· + ·) 0)), rfl, ?_, ?_, ?_⟩
    · simp [hev]
    · intro y hy
      rw [List.mem_map] at hy
      obtain ⟨e, he, rfl⟩ := hy
      rw [foldl_add_eq, zero_add]
      constructor
      · exact le_of_lt (div_pos (hpos e he) hsum)
      · rw [div_le_one hsum]
        exact List.single_le_sum (fun z hz => le_of_lt (hpos z hz)) e he
    · rw [foldl_add_eq, zero_add]
      have : (ev.map (fun e => e / ev.sum)).sum = ev.sum / ev.sum := by
        simp only [div_eq_mul_inv]
        rw [List.sum_map_mul_right]
        simp
      rw [this, div_self (ne_of_gt hsum)]
  · show Softmax exp ((x + c) :: xs.map (fun v => v + c)) = _
    simp only [Softmax]
    have hmax : goMax ((x + c) :: xs.map (fun v => v + c)) (x + c) =
        goMax (x :: xs) x + c := by
      have := goMax_shift c (x :: xs) x
      simpa using this
    rw [hmax]
    have hev : ((x + c) :: xs.map (fun v => v + c)).map
        (fun v => exp (v - (goMax (x :: xs) x + c))) =
        (x :: xs).map (fun v => exp (v - goMax (x :: xs) x)) := by
      have hcomp : ((fun v => exp (v - (goMax (x :: xs) x + c))) ∘
          (fun v => v + c)) = (fun v => exp (v - goMax (x :: xs) x)) := by
        funext v
        simp only [Function.comp_apply]
        congr 1
        ring
      calc ((x + c) :: xs.map (fun v => v + c)).map
            (fun v => exp (v - (goMax (x :: xs) x + c)))
          = ((x :: xs).map (fun v => v + c)).map
            (fun v => exp (v - (goMax (x :: xs) x + c))) := rfl
        _ = (x :: xs).map ((fun v => exp (v - (goMax (x :: xs) x + c))) ∘
            (fun v => v + c)) := by rw [List.map_map]
        _ = (x :: xs).map (fun v => exp (v - goMax (x :: xs) x)) := by rw [hcomp]
    rw [hev]

/-- Witness for C8 at a concrete input: `exp := fun _ => 1` is positive and
`[0, 5]` is nonempty; the specification follows at that input. -/
theorem softmax_spec_witness :
    ((∀ x : ℚ, (0 : ℚ) < 1) ∧ ([(0 : ℚ), 5] ≠ [])) ∧
    ((∃ out, Softmax (fun _ => 1) [(0 : ℚ), 5] = some out ∧
        out.length = 2 ∧ (∀ y ∈ out, 0 ≤ y ∧ y ≤ 1) ∧ out.sum = 1) ∧
      Softmax (fun _ => 1) ([(0 : ℚ), 5].map (fun v => v + 7)) =
        Softmax (fun _ => 1) [(0 : ℚ), 5] ∧
      Softmax (fun _ => (1 : ℚ)) ([] : List ℚ) = none) :=
  ⟨⟨fun _ => one_pos, by simp⟩,
    softmax_spec (fun _ => 1) 7 [(0 : ℚ), 5] (fun _ => one_pos) (by simp)⟩

/-- Claim C1: for a Dense layer with cached input of `B = gradOutput.Rows`
rows and `gradOutput.Cols = OutputSize`, `Backward` sets
`weightsGrad[i][j] = (1/B)·Σ_b lastInput[b][i]·gradOutput[b][j]` and
`biasGrad[j] = (1/B)·Σ_b gradOutput[b][j]`, and returns the input gradient
`[b][i] = Σ_k gradOutput[b][k]·Weights[i][k]` with no division by `B`. -/
theorem dense_backward_spec (d : Dense) (gradOutput : Matrix)
    (hc : gradOutput.Cols = d.OutputSize)
    (hb : d.lastInput.Rows = gradOutput.Rows)
    (hpos : 0 < gradOutput.Rows) :
    ∃ d' gi, d.Backward gradOutput = (d', .ok gi) ∧
      (∀ i < d.InputSize, ∀ j < d.OutputSize,
        d'.weightsGrad.Data i j = (1 / (gradOutput.Rows : ℚ)) *
          ∑ b ∈ Finset.range gradOutput.Rows,
            d.lastInput.Data b i * gradOutput.Data b j) ∧
      (∀ j < d.OutputSize,
        d'.biasGrad.Data 0 j = (1 / (gradOutput.Rows : ℚ)) *
          ∑ b ∈ Finset.range gradOutput.Rows, gradOutput.Data b j) ∧
      gi.Rows = gradOutput.Rows ∧ gi.Cols = d.InputSize ∧
      (∀ b < gradOutput.Rows, ∀ i < d.InputSize,
        gi.Data b i = ∑ k ∈ Finset.range d.OutputSize,
          gradOutput.Data b k * d.Weights.Data i k) := by
  clear hpos
  have hcond : ¬(gradOutput.Cols ≠ d.OutputSize) := by simp [hc]
  unfold Dense.Backward
  rw [if_neg hcond]
  refine ⟨_, _, rfl, ?_, ?_, rfl, rfl, ?_⟩
  · intro i hi j hj
    simp only [hi, hj, and_self, if_true, hb]
    ring
  · intro j hj
    simp only [hj, and_true, eq_self_iff_true, if_true]
    ring
  · intro b hbb i hi
    simp only [Matrix.fill, hbb, hi, and_self, if_true]

/-- Witness for C1 at a concrete 1-in/1-out Dense layer with a 2-row batch:
the hypotheses hold and the gradient formulas follow. -/
theorem dense_backward_spec_witness :
    ((⟨2, 1, fun i j => (i : ℚ) + j + 1⟩ : Matrix).Cols = 1 ∧
      (⟨2, 1, fun i j => (i : ℚ) - j⟩ : Matrix).Rows =
        (⟨2, 1, fun i j => (i : ℚ) + j + 1⟩ : Matrix).Rows ∧
      0 < (⟨2, 1, fun i j => (i : ℚ) + j + 1⟩ : Matrix).Rows) ∧
    (∃ d' gi,
      Dense.Backward
        ⟨1, 1, NewMatrix 1 1, NewMatrix 1 1, ⟨2, 1, fun i j => (i : ℚ) - j⟩,
          NewMatrix 1 1, NewMatrix 1 1⟩
        ⟨2, 1, fun i j => (i : ℚ) + j + 1⟩ = (d', .ok gi) ∧
      (∀ i : ℕ, i < 1 → ∀ j : ℕ, j < 1 →
        d'.weightsGrad.Data i j = (1 / (2 : ℚ)) *
          ∑ b ∈ Finset.range 2, ((b : ℚ) - i) * ((b : ℚ) + j + 1)) ∧
      (∀ j : ℕ, j < 1 →
        d'.biasGrad.Data 0 j = (1 / (2 : ℚ)) *
          ∑ b ∈ Finset.range 2, ((b : ℚ) + j + 1)) ∧
      gi.Rows = 2 ∧ gi.Cols = 1 ∧
      (∀ b : ℕ, b < 2 → ∀ i : ℕ, i < 1 →
        gi.Data b i = ∑ k ∈ Finset.range 1, ((b : ℚ) + k + 1) * 0)) :=
  ⟨⟨rfl, rfl, by decide⟩,
    dense_backward_spec
      ⟨1, 1, NewMatrix 1 1, NewMatrix 1 1, ⟨2, 1, fun i j => (i : ℚ) - j⟩,
        NewMatrix 1 1, NewMatrix 1 1⟩
      ⟨2, 1, fun i j => (i : ℚ) + j + 1⟩ rfl rfl (by decide)⟩

/-- Claim C5: for a ReLU layer whose cached input matches `gradOutput`'s
shape, `Backward` returns `gradOutput[i][j]` where the cached input is
strictly positive and `0` where it is `≤ 0`. -/
theorem relu_backward_spec (r : ReLULayer) (gradOutput : Matrix)
    (hr : r.lastInput.Rows = gradOutput.Rows)
    (hc : r.lastInput.Cols = gradOutput.Cols) :
    ∃ res, r.Backward gradOutput = (r, .ok res) ∧
      res.Rows = gradOutput.Rows ∧ res.Cols = gradOutput.Cols ∧
      ∀ i < gradOutput.Rows, ∀ j < gradOutput.Cols,
        (0 < r.lastInput.Data i j → res.Data i j = gradOutput.Data i j) ∧
        (r.lastInput.Data i j ≤ 0 → res.Data i j = 0) := by
  clear hr hc
  refine ⟨_, rfl, rfl, rfl, ?_⟩
  intro i hi j hj
  constructor
  · intro hpos
    simp only [Matrix.fill, hi, hj, and_self, if_true, gt_iff_lt, hpos]
  · intro hnp
    simp only [Matrix.fill, hi, hj, and_self, if_true, gt_iff_lt,
      not_lt.mpr hnp, if_false]

/-- Witness for C5 on a 1×2 cached input `[1, -1]` with gradient `[3, 4]`:
the positive position passes through, the non-positive one is zeroed. -/
theorem relu_backward_spec_witness :
    ((⟨1, 2, fun _ j => 1 - 2 * (j : ℚ)⟩ : Matrix).Rows =
        (⟨1, 2, fun _ j => (j : ℚ) + 3⟩ : Matrix).Rows ∧
      (⟨1, 2, fun _ j => 1 - 2 * (j : ℚ)⟩ : Matrix).Cols =
        (⟨1, 2, fun _ j => (j : ℚ) + 3⟩ : Matrix).Cols) ∧
    (∃ res,
      ReLULayer.Backward ⟨⟨1, 2, fun _ j => 1 - 2 * (j : ℚ)⟩⟩
          ⟨1, 2, fun _ j => (j : ℚ) + 3⟩ =
        (⟨⟨1, 2, fun _ j => 1 - 2 * (j : ℚ)⟩⟩, .ok res) ∧
      res.Rows = 1 ∧ res.Cols = 2 ∧
      ∀ i : ℕ, i < 1 → ∀ j : ℕ, j < 2 →
        (0 < 1 - 2 * (j : ℚ) → res.Data i j = (j : ℚ) + 3) ∧
        (1 - 2 * (j : ℚ) ≤ 0 → res.Data i j = 0)) :=
  ⟨⟨rfl, rfl⟩,
    relu_backward_spec ⟨⟨1, 2, fun _ j => 1 - 2 * (j : ℚ)⟩⟩
      ⟨1, 2, fun _ j => (j : ℚ) + 3⟩ rfl rfl⟩

/-- Counterexample to C6: at P=[[2]], T=[[0]] the code's MSE gradient entry
is `-(0 − 2)/1 = 2`, not the claimed `−2`. -/
theorem mse_backward_concrete_counterexample :
    ∃ G, MSE.Backward ⟨1, 1, fun _ _ => 2⟩ ⟨1, 1, fun _ _ => 0⟩ = .ok G ∧
      G.Data 0 0 = 2 ∧ G.Data 0 0 ≠ -2 := by
  refine ⟨_, rfl, ?_, ?_⟩ <;> norm_num [Matrix.fill]

/-- Claim C6 (amended): for same-shaped P and T, `MSE.Forward P T` equals
`MSE.Forward T P` and `MSE.Backward P T` is the element-wise negation of
`MSE.Backward T P`; concretely at P=[[2]], T=[[0]] the loss is `2.0` and
the gradient is `[[2.0]]` (the code computes `−(y−p)/N = +2`, not `−2`). -/
theorem mse_spec (P T : Matrix) (hr : P.Rows = T.Rows) (hc : P.Cols = T.Cols) :
    MSE.Forward P T = MSE.Forward T P ∧
    (∃ G G', MSE.Backward P T = .ok G ∧ MSE.Backward T P = .ok G' ∧
      G.Rows = G'.Rows ∧ G.Cols = G'.Cols ∧
      ∀ i j, G.Data i j = -(G'.Data i j)) ∧
    MSE.Forward ⟨1, 1, fun _ _ => 2⟩ ⟨1, 1, fun _ _ => 0⟩ = .ok 2 ∧
    (∃ G, MSE.Backward ⟨1, 1, fun _ _ => 2⟩ ⟨1, 1, fun _ _ => 0⟩ = .ok G ∧
      G.Data 0 0 = 2) := by
  have h1 : ¬(P.Rows ≠ T.Rows ∨ P.Cols ≠ T.Cols) := by simp [hr, hc]
  have h2 : ¬(T.Rows ≠ P.Rows ∨ T.Cols ≠ P.Cols) := by simp [hr, hc]
  have hfwd : MSE.Forward ⟨1, 1, fun _ _ => 2⟩ ⟨1, 1, fun _ _ => 0⟩ = .ok 2 := by
    unfold MSE.Forward
    rw [if_neg (by norm_num)]
    norm_num [Finset.sum_range_succ]
  refine ⟨?_, ?_, hfwd, ⟨_, rfl, by norm_num [Matrix.fill]⟩⟩
  · unfold MSE.Forward
    rw [if_neg h1, if_neg h2]
    simp only [Except.ok.injEq]
    rw [hr, hc]
    congr 1
    refine Finset.sum_congr rfl (fun i _ => Finset.sum_congr rfl (fun j _ => ?_))
    ring
  · unfold MSE.Backward
    rw [if_neg h1, if_neg h2]
    refine ⟨_, _, rfl, rfl, by simp [Matrix.fill, hr], by simp [Matrix.fill, hc], ?_⟩
    intro i j
    simp only [Matrix.fill, hr, hc]
    by_cases hij : i < T.Rows ∧ j < T.Cols
    · simp only [hij, and_self, if_true]
      ring
    · simp only [hij, if_false]
      ring

/-- Witness for C6 (amended) at P=[[2]], T=[[0]]: same shape, so symmetry,
antisymmetry and the concrete loss/gradient values all follow. -/
theorem mse_spec_witness :
    ((⟨1, 1, fun _ _ => (2 : ℚ)⟩ : Matrix).Rows =
        (⟨1, 1, fun _ _ => (0 : ℚ)⟩ : Matrix).Rows ∧
      (⟨1, 1, fun _ _ => (2 : ℚ)⟩ : Matrix).Cols =
        (⟨1, 1, fun _ _ => (0 : ℚ)⟩ : Matrix).Cols) ∧
    (MSE.Forward ⟨1, 1, fun _ _ => 2⟩ ⟨1, 1, fun _ _ => 0⟩ =
        MSE.Forward ⟨1, 1, fun _ _ => 0⟩ ⟨1, 1, fun _ _ => 2⟩ ∧
      (∃ G G', MSE.Backward ⟨1, 1, fun _ _ => 2⟩ ⟨1, 1, fun _ _ => 0⟩ = .ok G ∧
        MSE.Backward ⟨1, 1, fun _ _ => 0⟩ ⟨1, 1, fun _ _ => 2⟩ = .ok G' ∧
        G.Rows = G'.Rows ∧ G.Cols = G'.Cols ∧
        ∀ i j, G.Data i j = -(G'.Data i j)) ∧
      MSE.Forward ⟨1, 1, fun _ _ => 2⟩ ⟨1, 1, fun _ _ => 0⟩ = .ok 2 ∧
      (∃ G, MSE.Backward ⟨1, 1, fun _ _ => 2⟩ ⟨1, 1, fun _ _ => 0⟩ = .ok G ∧
        G.Data 0 0 = 2)) :=
  ⟨⟨rfl, rfl⟩, mse_spec ⟨1, 1, fun _ _ => 2⟩ ⟨1, 1, fun _ _ => 0⟩ rfl rfl⟩

/-- Claim C7: `SGD.Update` returns `param + (momentum·velocity − lr·g)`
element-wise, with the velocity read from the per-identifier map and a
fresh zero matrix on first use; with momentum 0 this is `p − lr·g`. -/
theorem sgd_update_spec (sgd : SGD) (paramName : String)
    (params gradients : Matrix) :
    (SGD.Update sgd paramName params gradients).2.Rows = params.Rows ∧
    (SGD.Update sgd paramName params gradients).2.Cols = params.Cols ∧
    (∀ i < params.Rows, ∀ j < params.Cols,
      (SGD.Update sgd paramName params gradients).2.Data i j =
        params.Data i j +
          (sgd.Momentum *
              ((sgd.Velocity paramName).getD
                (NewMatrix params.Rows params.Cols)).Data i j -
            sgd.LearningRate * gradients.Data i j)) ∧
    (sgd.Momentum = 0 →
      ∀ i < params.Rows, ∀ j < params.Cols,
        (SGD.Update sgd paramName params gradients).2.Data i j =
          params.Data i j - sgd.LearningRate * gradients.Data i j) := by
  have hmain : ∀ i < params.Rows, ∀ j < params.Cols,
      (SGD.Update sgd paramName params gradients).2.Data i j =
        params.Data i j +
          (sgd.Momentum *
              ((sgd.Velocity paramName).getD
                (NewMatrix params.Rows params.Cols)).Data i j -
            sgd.LearningRate * gradients.Data i j) := by
    intro i hi j hj
    simp only [SGD.Update, Matrix.fill, hi, hj, and_self, if_true]
  refine ⟨rfl, rfl, hmain, ?_⟩
  intro hm i hi j hj
  rw [hmain i hi j hj, hm]
  ring

/-- Witness for C7: a fresh SGD with lr=0.1, momentum=0 on p=1.0, g=0.5:
the update formulas hold and the concrete result is 0.95 = 19/20. -/
theorem sgd_update_spec_witness :
    ((SGD.Update ⟨1 / 10, 0, fun _ => none⟩ "w" ⟨1, 1, fun _ _ => 1⟩
        ⟨1, 1, fun _ _ => 1 / 2⟩).2.Rows = 1 ∧
      (SGD.Update ⟨1 / 10, 0, fun _ => none⟩ "w" ⟨1, 1, fun _ _ => 1⟩
        ⟨1, 1, fun _ _ => 1 / 2⟩).2.Cols = 1 ∧
      (∀ i < 1, ∀ j < 1,
        (SGD.Update ⟨1 / 10, 0, fun _ => none⟩ "w" ⟨1, 1, fun _ _ => 1⟩
          ⟨1, 1, fun _ _ => 1 / 2⟩).2.Data i j =
            1 + (0 * (0 : ℚ) - 1 / 10 * (1 / 2))) ∧
      ((0 : ℚ) = 0 →
        ∀ i < 1, ∀ j < 1,
          (SGD.Update ⟨1 / 10, 0, fun _ => none⟩ "w" ⟨1, 1, fun _ _ => 1⟩
            ⟨1, 1, fun _ _ => 1 / 2⟩).2.Data i j = 1 - 1 / 10 * (1 / 2))) ∧
    (SGD.Update ⟨1 / 10, 0, fun _ => none⟩ "w" ⟨1, 1, fun _ _ => 1⟩
      ⟨1, 1, fun _ _ => 1 / 2⟩).2.Data 0 0 = 19 / 20 :=
  ⟨sgd_update_spec ⟨1 / 10, 0, fun _ => none⟩ "w" ⟨1, 1, fun _ _ => 1⟩
      ⟨1, 1, fun _ _ => 1 / 2⟩,
    by norm_num [SGD.Update, Matrix.fill, NewMatrix]⟩

/-- Shared helper: a full `UpdateWeights` pass driven by Adam advances the
global step counter by the total number of parameter matrices. -/
theorem updateWeights_adam_T (sqrt : ℚ → ℚ) (layers : List Layer) :
    ∀ (adam : AdamOptimizer) (idx : ℕ),
      (Sequential.UpdateWeights (AdamOptimizer.Update sqrt) layers adam idx).1.T =
        adam.T + paramCount layers := by
  induction layers with
  | nil =>
    intro adam idx
    simp [Sequential.UpdateWeights, paramCount]
  | cons l rest ih =>
    intro adam idx
    cases l with
    | dense d =>
      simp only [Sequential.UpdateWeights]
      rw [ih]
      simp [UpdateLayerParams, AdamOptimizer.Update, paramCount,
        Layer.GetParams, Dense.GetParams]
      omega
    | relu rl =>
      simp only [Sequential.UpdateWeights]
      rw [ih]
      simp [UpdateLayerParams, paramCount, Layer.GetParams]
    | softmax s =>
      simp only [Sequential.UpdateWeights]
      rw [ih]
      simp [UpdateLayerParams, paramCount, Layer.GetParams]

/-- Claim C2: every `AdamOptimizer.Update` call increments the single
global counter `T` by exactly one, for any identifier; the update of each
parameter is bias-corrected dividing the moments by `(1 − β1^T)` and
`(1 − β2^T)` at the just-incremented `T`; and a training step's
`UpdateWeights` pass over `k` parameters leaves `T` grown by `k` (so the
`k` parameters see `k` distinct consecutive counter values). -/
theorem adam_global_step_spec (sqrt : ℚ → ℚ) (adam : AdamOptimizer)
    (paramName : String) (params gradients : Matrix) (layers : List Layer) :
    (AdamOptimizer.Update sqrt adam paramName params gradients).1.T =
      adam.T + 1 ∧
    (∀ i < params.Rows, ∀ j < params.Cols,
      (AdamOptimizer.Update sqrt adam paramName params gradients).2.Data i j =
        params.Data i j - adam.LearningRate *
          ((adam.Beta1 *
              ((adam.M paramName).getD
                (NewMatrix params.Rows params.Cols)).Data i j +
            (1 - adam.Beta1) * gradients.Data i j) /
              (1 - adam.Beta1 ^ (adam.T + 1))) /
          (sqrt ((adam.Beta2 *
              ((adam.V paramName).getD
                (NewMatrix params.Rows params.Cols)).Data i j +
            (1 - adam.Beta2) * gradients.Data i j * gradients.Data i j) /
              (1 - adam.Beta2 ^ (adam.T + 1))) +
            adam.Epsilon)) ∧
    (∀ idx : ℕ,
      (Sequential.UpdateWeights (AdamOptimizer.Update sqrt) layers adam idx).1.T =
        adam.T + paramCount layers) := by
  refine ⟨rfl, ?_, fun idx => updateWeights_adam_T sqrt layers adam idx⟩
  intro i hi j hj
  simp only [AdamOptimizer.Update, Matrix.fill, hi, hj, and_self, if_true]

/-- Witness for C2 at a fresh Adam (T=0) on a single 1×1 parameter and a
one-Dense-layer model: `T` becomes 1 after one call and 2 after the
layer's two parameter updates. -/
theorem adam_global_step_spec_witness :
    (AdamOptimizer.Update (fun _ => 0)
      ⟨1 / 100, 9 / 10, 999 / 1000, 1 / 10 ^ 8, 0, fun _ => none, fun _ => none⟩
      "p" (NewMatrix 1 1) ⟨1, 1, fun _ _ => 1⟩).1.T = 0 + 1 ∧
    (∀ i < 1, ∀ j < 1,
      (AdamOptimizer.Update (fun _ => 0)
        ⟨1 / 100, 9 / 10, 999 / 1000, 1 / 10 ^ 8, 0, fun _ => none, fun _ => none⟩
        "p" (NewMatrix 1 1) ⟨1, 1, fun _ _ => 1⟩).2.Data i j =
        0 - 1 / 100 * ((9 / 10 * 0 + (1 - 9 / 10) * 1) / (1 - (9 / 10) ^ (0 + 1))) /
          ((0 : ℚ) + 1 / 10 ^ 8)) ∧
    (∀ idx : ℕ,
      (Sequential.UpdateWeights (AdamOptimizer.Update (fun _ => 0))
        [Layer.dense ⟨1, 1, NewMatrix 1 1, NewMatrix 1 1, NewMatrix 1 1,
          NewMatrix 1 1, NewMatrix 1 1⟩]
        ⟨1 / 100, 9 / 10, 999 / 1000, 1 / 10 ^ 8, 0, fun _ => none, fun _ => none⟩
        idx).1.T = 0 + 2) :=
  adam_global_step_spec (fun _ => 0)
    ⟨1 / 100, 9 / 10, 999 / 1000, 1 / 10 ^ 8, 0, fun _ => none, fun _ => none⟩
    "p" (NewMatrix 1 1) ⟨1, 1, fun _ _ => 1⟩
    [Layer.dense ⟨1, 1, NewMatrix 1 1, NewMatrix 1 1, NewMatrix 1 1,
      NewMatrix 1 1, NewMatrix 1 1⟩]

/-- Claim C10: a `Sequential` model with an empty layer list forwards (and
predicts) any input matrix unchanged, with no error. -/
theorem forward_empty_identity (exp : ℚ → ℚ) (X : Matrix) :
    Sequential.Forward exp [] 0 X = ([], .ok X) ∧
    Sequential.Predict exp [] X = ([], .ok X) :=
  ⟨rfl, rfl⟩

/-- Shared helper: `Dense.Forward` never touches the weight or bias
matrices (it only writes the input cache). -/
theorem dense_forward_params (d : Dense) (input : Matrix) :
    (d.Forward input).1.Weights = d.Weights ∧ (d.Forward input).1.Bias = d.Bias := by
  unfold Dense.Forward
  split
  · exact ⟨rfl, rfl⟩
  · split <;> exact ⟨rfl, rfl⟩

/-- Shared helper: `Dense.Backward` never touches the weight or bias
matrices (it only overwrites the gradient caches). -/
theorem dense_backward_params (d : Dense) (g : Matrix) :
    (d.Backward g).1.Weights = d.Weights ∧ (d.Backward g).1.Bias = d.Bias := by
  unfold Dense.Backward
  split
  · exact ⟨rfl, rfl⟩
  · exact ⟨rfl, rfl⟩

/-- Shared helper: a layer's parameter list is unchanged by `Forward`. -/
theorem layer_forward_params (exp : ℚ → ℚ) (l : Layer) (input : Matrix) :
    ((Layer.Forward exp l input).1).GetParams = l.GetParams := by
  cases l with
  | dense d =>
    simp only [Layer.Forward, Layer.GetParams, Dense.GetParams]
    rw [(dense_forward_params d input).1, (dense_forward_params d input).2]
  | relu rl => rfl
  | softmax s => rfl

/-- Shared helper: a layer's parameter list is unchanged by `Backward`. -/
theorem layer_backward_params (l : Layer) (g : Matrix) :
    ((Layer.Backward l g).1).GetParams = l.GetParams := by
  cases l with
  | dense d =>
    simp only [Layer.Backward, Layer.GetParams, Dense.GetParams]
    rw [(dense_backward_params d g).1, (dense_backward_params d g).2]
  | relu rl => rfl
  | softmax s => rfl

/-- Shared helper: the forward pass leaves every layer's parameter list
unchanged (whether it succeeds or aborts partway). -/
theorem seq_forward_params (exp : ℚ → ℚ) :
    ∀ (layers : List Layer) (i : ℕ) (input : Matrix),
      (Sequential.Forward exp layers i input).1.map Layer.GetParams =
        layers.map Layer.GetParams := by
  intro layers
  induction layers with
  | nil => intro i input; rfl
  | cons l rest ih =>
    intro i input
    simp only [Sequential.Forward]
    cases hE : (Layer.Forward exp l input).2 with
    | error e =>
      simp [List.map_cons, layer_forward_params]
    | ok out =>
      simp [List.map_cons, layer_forward_params, ih]

/-- Shared helper: the backward pass leaves every layer's parameter list
unchanged (whether it succeeds or aborts partway). -/
theorem seq_backward_params :
    ∀ (layers : List Layer) (i : ℕ) (g : Matrix),
      (Sequential.Backward layers i g).1.map Layer.GetParams =
        layers.map Layer.GetParams := by
  intro layers
  induction layers with
  | nil => intro i g; rfl
  | cons l rest ih =>
    intro i g
    simp only [Sequential.Backward]
    cases hE : (Sequential.Backward rest (i + 1) g).2 with
    | error e =>
      simp [List.map_cons, ih]
    | ok g2 =>
      cases hE2 : (Layer.Backward l g2).2 with
      | error e =>
        simp [hE, hE2, List.map_cons, layer_backward_params, ih]
      | ok g3 =>
        simp [hE, hE2, List.map_cons, layer_backward_params, ih]

/-- Claim C3: if `TrainOnBatch` returns an error (from the forward pass,
loss forward, loss backward or the layer backward pass), the optimizer
state is returned untouched — for every state type and update function,
so `Optimizer.Update` is never invoked — and every layer's parameter
list is exactly what it was before the call. -/
theorem trainOnBatch_error_no_update {σ : Type} (exp : ℚ → ℚ)
    (lossForward : Matrix → Matrix → Except String ℚ)
    (lossBackward : Matrix → Matrix → Except String Matrix)
    (upd : σ → String → Matrix → Matrix → σ × Matrix)
    (layers : List Layer) (st : σ) (X y : Matrix) (e : String)
    (h : (Sequential.TrainOnBatch exp lossForward lossBackward upd
      layers st X y).2 = .error e) :
    (Sequential.TrainOnBatch exp lossForward lossBackward upd
      layers st X y).1.2 = st ∧
    (Sequential.TrainOnBatch exp lossForward lossBackward upd
      layers st X y).1.1.map Layer.GetParams =
      layers.map Layer.GetParams := by
  simp only [Sequential.TrainOnBatch] at h ⊢
  split at h
  next e1 heq1 =>
    simp only [heq1]
    exact ⟨trivial, seq_forward_params exp layers 0 X⟩
  next predictions heq1 =>
    split at h
    next e2 heq2 =>
      simp only [heq1, heq2]
      exact ⟨trivial, seq_forward_params exp layers 0 X⟩
    next loss heq2 =>
      split at h
      next e3 heq3 =>
        simp only [heq1, heq2, heq3]
        exact ⟨trivial, seq_forward_params exp layers 0 X⟩
      next gradLoss heq3 =>
        split at h
        next e4 heq4 =>
          simp only [heq1, heq2, heq3, heq4]
          refine ⟨trivial, ?_⟩
          rw [seq_backward_params, seq_forward_params]
        next g heq4 =>
          simp at h

/-- Witness for C3: a one-Dense-layer model whose loss forward fails;
the abort leaves a counting optimizer state at 0 and the layer's
parameters untouched. -/
theorem trainOnBatch_error_no_update_witness :
    ((Sequential.TrainOnBatch (fun q => q) (fun _ _ => .error "boom")
        (fun _ _ => .ok (NewMatrix 1 1)) (fun n _ _ _ => (n + 1, NewMatrix 1 1))
        [Layer.dense ⟨2, 1, NewMatrix 2 1, NewMatrix 1 1, NewMatrix 1 1,
          NewMatrix 2 1, NewMatrix 1 1⟩] (0 : ℕ)
        (NewMatrix 1 2) (NewMatrix 1 1)).2 = .error "boom") ∧
    ((Sequential.TrainOnBatch (fun q => q) (fun _ _ => .error "boom")
        (fun _ _ => .ok (NewMatrix 1 1)) (fun n _ _ _ => (n + 1, NewMatrix 1 1))
        [Layer.dense ⟨2, 1, NewMatrix 2 1, NewMatrix 1 1, NewMatrix 1 1,
          NewMatrix 2 1, NewMatrix 1 1⟩] (0 : ℕ)
        (NewMatrix 1 2) (NewMatrix 1 1)).1.2 = 0 ∧
      (Sequential.TrainOnBatch (fun q => q) (fun _ _ => .error "boom")
        (fun _ _ => .ok (NewMatrix 1 1)) (fun n _ _ _ => (n + 1, NewMatrix 1 1))
        [Layer.dense ⟨2, 1, NewMatrix 2 1, NewMatrix 1 1, NewMatrix 1 1,
          NewMatrix 2 1, NewMatrix 1 1⟩] (0 : ℕ)
        (NewMatrix 1 2) (NewMatrix 1 1)).1.1.map Layer.GetParams =
        [Layer.dense ⟨2, 1, NewMatrix 2 1, NewMatrix 1 1, NewMatrix 1 1,
          NewMatrix 2 1, NewMatrix 1 1⟩].map Layer.GetParams) :=
  ⟨rfl,
    trainOnBatch_error_no_update (fun q => q) (fun _ _ => .error "boom")
      (fun _ _ => .ok (NewMatrix 1 1)) (fun n _ _ _ => (n + 1, NewMatrix 1 1))
      [Layer.dense ⟨2, 1, NewMatrix 2 1, NewMatrix 1 1, NewMatrix 1 1,
        NewMatrix 2 1, NewMatrix 1 1⟩] (0 : ℕ)
      (NewMatrix 1 2) (NewMatrix 1 1) "boom" rfl⟩

/-- Claim C9: for a convolution layer with positive stride and a filter
that fits the padded input, `Forward` errors exactly on a channel-count
mismatch; otherwise the output has spatial size
`(size + 2·padding − filterSize)/stride + 1` per axis (floor division,
equal to Go's toward-zero division since the numerator is nonnegative),
and every cell is the filter bias plus the dot product of the filter with
its receptive window over all channels, sampling out-of-bounds
coordinates as zero. -/
theorem conv_forward_spec (conv : ConvLayer) (input : Tensor3D)
    (hs : 0 < conv.Stride)
    (hh : conv.FilterSize ≤ input.Height + 2 * conv.Padding)
    (hw : conv.FilterSize ≤ input.Width + 2 * conv.Padding) :
    (input.Channels ≠ conv.InChannels →
      ∃ e, conv.Forward input = .error e) ∧
    (input.Channels = conv.InChannels →
      ∃ out, conv.Forward input = .ok out ∧
        out.Channels = conv.NumFilters ∧
        out.Height =
          (input.Height + 2 * conv.Padding - conv.FilterSize) / conv.Stride + 1 ∧
        out.Width =
          (input.Width + 2 * conv.Padding - conv.FilterSize) / conv.Stride + 1 ∧
        (∀ f < conv.NumFilters,
          ∀ h < (input.Height + 2 * conv.Padding - conv.FilterSize) / conv.Stride + 1,
          ∀ w < (input.Width + 2 * conv.Padding - conv.FilterSize) / conv.Stride + 1,
            out.Data f h w = conv.Bias f +
              ∑ c ∈ Finset.range conv.InChannels,
                ∑ fh ∈ Finset.range conv.FilterSize,
                  ∑ fw ∈ Finset.range conv.FilterSize,
                    (if 0 ≤ (h : ℤ) * conv.Stride + fh - conv.Padding ∧
                        (h : ℤ) * conv.Stride + fh - conv.Padding < input.Height ∧
                        0 ≤ (w : ℤ) * conv.Stride + fw - conv.Padding ∧
                        (w : ℤ) * conv.Stride + fw - conv.Padding < input.Width then
                      input.Data c
                          ((h : ℤ) * conv.Stride + fh - conv.Padding).toNat
                          ((w : ℤ) * conv.Stride + fw - conv.Padding).toNat *
                        conv.Filters f c fh fw
                    else 0))) := by
  clear hs
  have key : ∀ size : ℕ, conv.FilterSize ≤ size + 2 * conv.Padding →
      (Int.tdiv ((size : ℤ) - conv.FilterSize + 2 * conv.Padding)
        (conv.Stride : ℤ) + 1).toNat =
        (size + 2 * conv.Padding - conv.FilterSize) / conv.Stride + 1 := by
    intro size hle
    have h1 : ((size : ℤ) - conv.FilterSize + 2 * conv.Padding) =
        ((size + 2 * conv.Padding - conv.FilterSize : ℕ) : ℤ) := by omega
    rw [h1]
    have h2 : Int.tdiv ((size + 2 * conv.Padding - conv.FilterSize : ℕ) : ℤ)
        (conv.Stride : ℤ) =
        (((size + 2 * conv.Padding - conv.FilterSize) / conv.Stride : ℕ) : ℤ) := rfl
    rw [h2]
    generalize (size + 2 * conv.Padding - conv.FilterSize) / conv.Stride = q
    omega
  constructor
  · intro hne
    exact ⟨"input channels mismatch", by simp [ConvLayer.Forward, hne]⟩
  · intro hch
    have hcond : ¬(input.Channels ≠ conv.InChannels) := by simp [hch]
    unfold ConvLayer.Forward
    rw [if_neg hcond]
    refine ⟨_, rfl, rfl, key input.Height hh, key input.Width hw, ?_⟩
    intro f hf h hh2 w hw2
    simp only [key input.Height hh, key input.Width hw, hf, hh2, hw2,
      and_self, if_true]

/-- Witness for C9 at the concrete configuration of the spec: a 1-channel
4×4 input (values `i·4+j`), one 2×2 all-ones filter with bias 5, stride 1,
padding 0; the output is 3×3 and each cell is bias plus its window sum. -/
theorem conv_forward_spec_witness :
    ((0 : ℕ) < 1 ∧ (2 : ℕ) ≤ 4 + 2 * 0 ∧ (2 : ℕ) ≤ 4 + 2 * 0) ∧
    (((1 : ℕ) ≠ 1 →
        ∃ e, ConvLayer.Forward ⟨1, 2, 1, 0, 1, fun _ _ _ _ => 1, fun _ => 5⟩
          ⟨1, 4, 4, fun _ i j => (i : ℚ) * 4 + j⟩ = .error e) ∧
      ((1 : ℕ) = 1 →
        ∃ out, ConvLayer.Forward ⟨1, 2, 1, 0, 1, fun _ _ _ _ => 1, fun _ => 5⟩
            ⟨1, 4, 4, fun _ i j => (i : ℚ) * 4 + j⟩ = .ok out ∧
          out.Channels = 1 ∧
          out.Height = (4 + 2 * 0 - 2) / 1 + 1 ∧
          out.Width = (4 + 2 * 0 - 2) / 1 + 1 ∧
          (∀ f < 1,
            ∀ h < (4 + 2 * 0 - 2) / 1 + 1,
            ∀ w < (4 + 2 * 0 - 2) / 1 + 1,
              out.Data f h w = 5 +
                ∑ c ∈ Finset.range 1, ∑ fh ∈ Finset.range 2,
                  ∑ fw ∈ Finset.range 2,
                    (if 0 ≤ (h : ℤ) * 1 + fh - 0 ∧ (h : ℤ) * 1 + fh - 0 < 4 ∧
                        0 ≤ (w : ℤ) * 1 + fw - 0 ∧ (w : ℤ) * 1 + fw - 0 < 4 then
                      (((((h : ℤ) * 1 + fh - 0).toNat : ℚ)) * 4 +
                        (((w : ℤ) * 1 + fw - 0).toNat : ℚ)) * 1
                    else 0)))) :=
  ⟨⟨by decide, by decide, by decide⟩,
    conv_forward_spec ⟨1, 2, 1, 0, 1, fun _ _ _ _ => 1, fun _ => 5⟩
      ⟨1, 4, 4, fun _ i j => (i : ℚ) * 4 + j⟩ (by decide) (by decide) (by decide)⟩

end NN
